import Mathlib

/-!
Shallow embedding of the Anchor program in
`payment_receiver/programs/payment_receiver/src/lib.rs`.

The spec's vocabulary maps onto the source as follows:
`LedgerState` = `PaymentState`, `payment_count` = `total_payments`,
`authority` = `owner`, `CustodyVault` = the `vault` PDA's lamport balance,
identity = `Pubkey` (the null/default identity is `Pubkey::default()`, the
all-zero key, modelled as `0`).

Host-runtime behaviour that the handlers rely on is modelled explicitly:
Anchor validates the `#[derive(Accounts)]` constraints (`seeds`, `bump`,
`has_one`, `init`) before the handler body runs; the Solana runtime
discards every account mutation of an instruction that fails
(all-or-nothing transitions, spec section 5); and the runtime forbids a
program from decreasing the lamports of an account it does not own (the
`ExternalAccountLamportSpend` post-execution check) — the vault is a
`SystemAccount`, owned by the System Program, so the direct lamport debit
in `withdraw` is rejected at commit.  Rent/fee mechanics and event
emission (`msg!`) are out of scope per spec section 1 and are not modelled.
Lamport balances are `Nat` (u64 lamports; the total supply makes additive
overflow unreachable, and the only subtractions in the source are guarded).
-/

namespace PaymentReceiver

/-- Identity: a public key. `Pubkey::default()` (all-zero key) is `0`. -/
abbrev Pubkey := Nat

/-- Models `Pubkey::default()`, the null identity. -/
def defaultPubkey : Pubkey := 0

/-- Modulus of the 64-bit counter (`u64`). -/
def U64 : Nat := 2 ^ 64

/-- Mirrors `struct PaymentState { owner, total_payments, bump }`. -/
structure PaymentState where
  owner : Pubkey
  total_payments : Nat
  bump : Nat
  deriving DecidableEq

/-- Mirrors `struct PaymentRecord { payment_id, payer, amount, timestamp, bump }`. -/
structure PaymentRecord where
  payment_id : Nat
  payer : Pubkey
  amount : Nat
  timestamp : Int
  bump : Nat
  deriving DecidableEq

/-- The program's own `#[error_code] enum ErrorCode` — exactly the two
variants declared in the source, verbatim. -/
inductive ErrorCode where
  | NoFundsToWithdraw
  | InvalidNewOwner
  deriving DecidableEq

/-- Every way an instruction of this program can fail.  `program e` is a
typed rejection raised by a `require!` in a handler body; the rest are
framework- or runtime-level failures:
`unauthorized` is Anchor's `ConstraintHasOne` error raised by the
`has_one = owner` constraint (what the spec calls `Unauthorized`);
`alreadyInUse` is the system program's failure to `init` an account that
already exists (spec: `AlreadyInitialized`); `accountNotInitialized` is
Anchor's failure to deserialize a required account that does not exist;
`insufficientFunds` is the system program's transfer failure;
`constraintPanic` is the untyped abort of `checked_add(1).unwrap()` in the
`payment_record` seeds when the counter is at `u64::MAX`; and
`accountLamportSpend` is the runtime's `ExternalAccountLamportSpend`
rejection of an instruction that decreased the lamports of an account the
program does not own. -/
inductive TxError where
  | program (e : ErrorCode)
  | unauthorized
  | alreadyInUse
  | accountNotInitialized
  | insufficientFunds
  | constraintPanic
  | accountLamportSpend
  deriving DecidableEq

/-- Little-endian byte encoding, `k` bytes: mirrors `u64::to_le_bytes`
when `k = 8`. -/
def leBytes : Nat → Nat → List Nat
  | 0, _ => []
  | k + 1, n => n % 256 :: leBytes k (n / 256)

/-- The 8-byte little-endian encoding of a `u64`, as used in the
`payment_record` seeds `[b"payment", (total_payments+1).to_le_bytes()]`. -/
def u64le (n : Nat) : List Nat := leBytes 8 n

/-- Recombine little-endian bytes into a number (used only to reason about
`leBytes`, e.g. its injectivity on `u64` values). -/
def leDecode : List Nat → Nat
  | [] => 0
  | b :: bs => b + 256 * leDecode bs

/-- On-chain state touched by the program: the singleton `PaymentState`
account (`none` before `initialize` creates it), the `PaymentRecord`
accounts keyed by their PDA seed bytes (the part after the `b"payment"`
tag), the lamport balance of the `vault` PDA, and the general lamport
balances of ordinary (non-PDA) identities. -/
structure Chain where
  payment_state : Option PaymentState
  records : List (List Nat × PaymentRecord)
  vault : Nat
  balances : Pubkey → Nat

/-- The four instructions.  Each carries the signing caller where the
accounts struct demands a `Signer`, and `receive_payment` also carries the
host-supplied clock value (`Clock::get()?.unix_timestamp`) and the
host-derived bump for the new record account. -/
inductive Op where
  | initLedger (owner : Pubkey) (stateBump : Nat)
  | receive_payment (payer : Pubkey) (amount : Nat) (now : Int) (recBump : Nat)
  | withdraw (caller : Pubkey)
  | transfer_ownership (caller : Pubkey) (new_owner : Pubkey)

/-- Mirrors `initialize`: the `init` constraint fails if the state account
already exists; otherwise the handler stores `owner`, zeroes the counter
and records the bump.  No validity check is made on `owner`. -/
def initLedger (c : Chain) (owner : Pubkey) (stateBump : Nat) :
    Except TxError Chain :=
  match c.payment_state with
  | some _ => .error .alreadyInUse
  | none =>
      .ok { c with payment_state := some ⟨owner, 0, stateBump⟩ }

/-- Mirrors `receive_payment` together with its `ReceivePayment` accounts
constraints.  Constraint phase: the state account must exist; the new
record's seeds evaluate `total_payments.checked_add(1).unwrap()`, which
panics when the counter is `u64::MAX`; `init` fails if a record already
sits at the derived address.  Handler body: increment the counter, fill in
the record, then CPI-transfer `amount` lamports from the payer to the
vault, which fails when the payer's balance cannot cover `amount`. -/
def receive_payment (c : Chain) (payer : Pubkey) (amount : Nat) (now : Int)
    (recBump : Nat) : Except TxError Chain :=
  match c.payment_state with
  | none => .error .accountNotInitialized
  | some st =>
      if U64 ≤ st.total_payments + 1 then .error .constraintPanic
      else if u64le (st.total_payments + 1) ∈ c.records.map Prod.fst then
        .error .alreadyInUse
      else if c.balances payer < amount then .error .insufficientFunds
      else
        .ok { c with
          payment_state := some { st with total_payments := st.total_payments + 1 },
          records := c.records ++
            [(u64le (st.total_payments + 1),
              ⟨st.total_payments + 1, payer, amount, now, recBump⟩)],
          vault := c.vault + amount,
          balances := fun p =>
            if p = payer then c.balances payer - amount else c.balances p }

/-- Mirrors `withdraw` together with its `Withdraw` accounts constraints
and the runtime's lamport-ownership rule.  Constraint phase: the state
account must exist and `has_one = owner` requires the signing `owner`
account to equal `payment_state.owner`.  Handler body:
`require!(vault_balance > 0, NoFundsToWithdraw)`, then it debits the vault
and credits the owner by direct lamport mutation
(`**vault.try_borrow_mut_lamports()? -= vault_balance`).  The vault,
however, is a `SystemAccount` — owned by the System Program, not by this
program — and no `invoke_signed` CPI is made (the seeds/signer built in
the body are dead code), so the runtime rejects the instruction at commit
with `ExternalAccountLamportSpend` and discards the mutations: past the
`require!`, `withdraw` always fails. -/
def withdraw (c : Chain) (caller : Pubkey) : Except TxError Chain :=
  match c.payment_state with
  | none => .error .accountNotInitialized
  | some st =>
      if caller ≠ st.owner then .error .unauthorized
      else if 0 < c.vault then .error .accountLamportSpend
      else .error (.program .NoFundsToWithdraw)

/-- Mirrors `transfer_ownership` together with its `TransferOwnership`
accounts constraints.  Constraint phase: state exists, `has_one = owner`.
Handler body: `require!(new_owner != Pubkey::default(), InvalidNewOwner)`,
then store the new owner. -/
def transfer_ownership (c : Chain) (caller : Pubkey) (new_owner : Pubkey) :
    Except TxError Chain :=
  match c.payment_state with
  | none => .error .accountNotInitialized
  | some st =>
      if caller ≠ st.owner then .error .unauthorized
      else if new_owner ≠ defaultPubkey then
        .ok { c with payment_state := some { st with owner := new_owner } }
      else .error (.program .InvalidNewOwner)

/-- Dispatch an instruction to its handler. -/
def apply (c : Chain) : Op → Except TxError Chain
  | .initLedger o b => initLedger c o b
  | .receive_payment p a t b => receive_payment c p a t b
  | .withdraw k => withdraw c k
  | .transfer_ownership k n => transfer_ownership c k n

/-- One transaction: on error the Solana runtime discards every account
mutation, so the chain state is unchanged. -/
def step (c : Chain) (op : Op) : Chain :=
  match apply c op with
  | .ok c' => c'
  | .error _ => c

/-- Run a sequence of transactions. -/
def exec (c : Chain) : List Op → Chain
  | [] => c
  | op :: ops => exec (step c op) ops

/-- Whether a call succeeds. -/
def isOk {ε α : Type} : Except ε α → Bool
  | .ok _ => true
  | .error _ => false

/-- Amount credited to the vault by `op` from state `c`: the amount of a
successful `receive_payment`, `0` otherwise. -/
def recvAmt (c : Chain) (op : Op) : Nat :=
  match op with
  | .receive_payment _ a _ _ => if isOk (apply c op) then a else 0
  | _ => 0

/-- Amount debited from the vault by `op` from state `c`: the prior vault
balance for a successful `withdraw`, `0` otherwise. -/
def wdAmt (c : Chain) (op : Op) : Nat :=
  match op with
  | .withdraw _ => if isOk (apply c op) then c.vault else 0
  | _ => 0

/-- Sum of the amounts of the successful `receive_payment` calls in `ops`
run from `c`. -/
def recvTotal (c : Chain) : List Op → Nat
  | [] => 0
  | op :: ops => recvAmt c op + recvTotal (step c op) ops

/-- Sum of the amounts of the successful `withdraw` calls in `ops` run
from `c`. -/
def wdTotal (c : Chain) : List Op → Nat
  | [] => 0
  | op :: ops => wdAmt c op + wdTotal (step c op) ops

/-- Number of successful `receive_payment` calls in `ops` run from `c`. -/
def recvCount (c : Chain) : List Op → Nat
  | [] => 0
  | op :: ops =>
      (match op with
        | .receive_payment _ _ _ _ => if isOk (apply c op) then 1 else 0
        | _ => 0) + recvCount (step c op) ops

/-- The current `total_payments` counter (`0` before `initialize`). -/
def countOf (c : Chain) : Nat :=
  match c.payment_state with
  | none => 0
  | some st => st.total_payments

/-- The `payment_id` fields of the stored records, in creation order. -/
def idsOf (c : Chain) : List Nat :=
  c.records.map fun e => e.2.payment_id

/-- A freshly initialized deployment: state account created with the given
authority and a zero counter, no records, empty vault. -/
def freshChain (a : Pubkey) (b : Nat) (bal : Pubkey → Nat) : Chain :=
  ⟨some ⟨a, 0, b⟩, [], 0, bal⟩

/-- Structural invariant of reachable states: before `initialize` there are
no records; afterwards the counter is a `u64` value, the record addresses
(seed bytes) are exactly the encodings of `1, …, total_payments` in
creation order, and the stored `payment_id`s are exactly
`1, …, total_payments` in creation order. -/
def ledgerInv (c : Chain) : Prop :=
  match c.payment_state with
  | none => c.records = []
  | some st =>
      st.total_payments < U64 ∧
      c.records.map Prod.fst = (List.range' 1 st.total_payments).map u64le ∧
      idsOf c = List.range' 1 st.total_payments

/-- Concrete state: authority `1`, zero counter, vault holding 5 lamports. -/
def baseChain : Chain := ⟨some ⟨1, 0, 255⟩, [], 5, fun _ => 1000⟩

/-- Concrete state: authority `1`, zero counter, empty vault. -/
def zeroChain : Chain := ⟨some ⟨1, 0, 255⟩, [], 0, fun _ => 1000⟩

/-- Concrete state whose counter sits at `u64::MAX`. -/
def fullChain : Chain := ⟨some ⟨1, U64 - 1, 255⟩, [], 0, fun _ => 1000⟩

/-- Concrete state before `initialize`. -/
def emptyChain : Chain := ⟨none, [], 0, fun _ => 1000⟩

/-- Concrete state whose stored authority is the null identity. -/
def nullOwnerChain : Chain := ⟨some ⟨defaultPubkey, 0, 255⟩, [], 0, fun _ => 1000⟩

/-- Result of `receive_payment 5 100` from a fresh deployment where every
account holds 1000 lamports. -/
def recvResult : Chain :=
  { payment_state := some ⟨1, 1, 255⟩,
    records := [(u64le 1, ⟨1, 5, 100, 0, 254⟩)],
    vault := 100,
    balances := fun q => if q = 5 then 900 else 1000 }

/-- C2 (code bug): the claim's success half never occurs in the deployed
program.  `withdraw` moves funds by directly mutating lamports
(`**vault.try_borrow_mut_lamports()? -= vault_balance`), but the vault is
a `SystemAccount` owned by the System Program and no `invoke_signed` CPI
is made — the seeds/signer computed in the body are dead code — so the
runtime rejects every call that passes the `require!` with
`ExternalAccountLamportSpend` and rolls it back.  Hence: `withdraw` never
succeeds from any state for any caller; at the concrete failing input
(vault holding 5 lamports, called by the stored authority `1`) it aborts
with the lamport-spend error and leaves the chain unchanged, where the
claim demands success with the vault zeroed and the authority credited;
only the zero-balance half of the claim (`NoFundsToWithdraw`) behaves as
stated. -/
theorem C2_withdraw_never_succeeds :
    (∀ c k, isOk (withdraw c k) = false) ∧
    withdraw baseChain 1 = .error .accountLamportSpend ∧
    step baseChain (.withdraw 1) = baseChain ∧
    withdraw zeroChain 1 = .error (.program .NoFundsToWithdraw) := by
  refine ⟨?_, rfl, rfl, rfl⟩
  intro c k
  rcases hst : c.payment_state with _ | st
  · simp [isOk, withdraw, hst]
  · by_cases hk : k = st.owner
    · subst hk
      by_cases hv : 0 < c.vault
      · simp [isOk, withdraw, hst, hv]
      · simp [isOk, withdraw, hst, hv]
    · simp [isOk, withdraw, hst, hk]

/-- C3: any caller whose identity differs from the stored authority is
rejected by the `has_one = owner` constraint (the spec's `Unauthorized`)
on both `withdraw` and `transfer_ownership`, and the failed transaction
leaves the whole chain state unchanged. -/
theorem C3_unauthorized_rejected (c : Chain) (st : PaymentState)
    (caller nw : Pubkey) (h : c.payment_state = some st)
    (hne : caller ≠ st.owner) :
    withdraw c caller = .error .unauthorized ∧
    transfer_ownership c caller nw = .error .unauthorized ∧
    step c (.withdraw caller) = c ∧
    step c (.transfer_ownership caller nw) = c := by
  have h1 : withdraw c caller = .error .unauthorized := by
    simp [withdraw, h, hne]
  have h2 : transfer_ownership c caller nw = .error .unauthorized := by
    simp [transfer_ownership, h, hne]
  exact ⟨h1, h2, by simp [step, apply, h1], by simp [step, apply, h2]⟩

/-- C3 witness: caller `2` against stored authority `1`. -/
theorem C3_unauthorized_rejected_witness :
    withdraw baseChain 2 = .error .unauthorized ∧
    transfer_ownership baseChain 2 7 = .error .unauthorized ∧
    step baseChain (.withdraw 2) = baseChain ∧
    step baseChain (.transfer_ownership 2 7) = baseChain :=
  C3_unauthorized_rejected baseChain ⟨1, 0, 255⟩ 2 7 rfl (by decide)

/-- C5 counterexample: at a state whose counter is `u64::MAX`,
`receive_payment` aborts with the untyped `constraintPanic` (the
`checked_add(1).unwrap()` panic in the record-address seeds), and this
failure is not a typed program error at all: the program's `ErrorCode`
enum has exactly the two variants `NoFundsToWithdraw` and
`InvalidNewOwner`, so no typed `CounterOverflow` rejection exists. -/
theorem C5_counterexample :
    receive_payment fullChain 5 100 0 255 = .error .constraintPanic ∧
    TxError.constraintPanic ≠ .program .NoFundsToWithdraw ∧
    TxError.constraintPanic ≠ .program .InvalidNewOwner := by
  refine ⟨?_, by decide, by decide⟩
  have : U64 ≤ (U64 - 1) + 1 := by
    have h0 : (0 : Nat) < U64 := by decide
    omega
  simp [receive_payment, fullChain, this]

/-- C5 amended: when the counter sits at `u64::MAX` (2^64 − 1),
`receive_payment` fails — via the `checked_add(1).unwrap()` panic while
evaluating the new record's seeds, an untyped abort rather than a typed
`CounterOverflow` error — and the failed transaction leaves the state
unchanged. -/
theorem C5_overflow_aborts (c : Chain) (st : PaymentState) (p : Pubkey)
    (amt : Nat) (t : Int) (b : Nat) (h : c.payment_state = some st)
    (hfull : st.total_payments = U64 - 1) :
    receive_payment c p amt t b = .error .constraintPanic ∧
    step c (.receive_payment p amt t b) = c := by
  have hc : U64 ≤ st.total_payments + 1 := by
    have h0 : (0 : Nat) < U64 := by decide
    omega
  have h1 : receive_payment c p amt t b = .error .constraintPanic := by
    simp [receive_payment, h, hc]
  exact ⟨h1, by simp [step, apply, h1]⟩

/-- C5 witness for the amended theorem, at the concrete full state. -/
theorem C5_overflow_aborts_witness :
    receive_payment fullChain 5 100 0 255 = .error .constraintPanic ∧
    step fullChain (.receive_payment 5 100 0 255) = fullChain :=
  C5_overflow_aborts fullChain ⟨1, U64 - 1, 255⟩ 5 100 0 255 rfl rfl

/-- C7 counterexample: a caller who is not the stored authority and passes
the null identity as the new owner is rejected by the `has_one = owner`
constraint — which Anchor checks before the handler body runs — so the
call fails with the authorization error, not with the typed
`InvalidNewOwner` the claim demands for every such call. -/
theorem C7_counterexample :
    transfer_ownership baseChain 2 defaultPubkey = .error .unauthorized ∧
    TxError.unauthorized ≠ .program .InvalidNewOwner := by
  exact ⟨by simp [transfer_ownership, baseChain, defaultPubkey], by decide⟩

/-- C7 amended: when the caller is the current authority, passing the null
identity fails with the typed `InvalidNewOwner` and changes nothing, and
passing any non-null identity succeeds and stores it as the new authority;
a caller other than the current authority is instead rejected earlier by
the `has_one` authorization constraint. -/
theorem C7_transfer_spec (c : Chain) (st : PaymentState) (nw : Pubkey)
    (h : c.payment_state = some st) :
    (nw = defaultPubkey →
      transfer_ownership c st.owner nw = .error (.program .InvalidNewOwner) ∧
      step c (.transfer_ownership st.owner nw) = c) ∧
    (nw ≠ defaultPubkey →
      transfer_ownership c st.owner nw =
        .ok { c with payment_state := some { st with owner := nw } }) := by
  constructor
  · intro hnw
    have h1 : transfer_ownership c st.owner nw =
        .error (.program .InvalidNewOwner) := by
      simp [transfer_ownership, h, hnw]
    exact ⟨h1, by simp [step, apply, h1]⟩
  · intro hnw
    simp [transfer_ownership, h, hnw]

/-- C7 witness for the amended theorem: both branches from `baseChain`
(authority `1`). -/
theorem C7_transfer_spec_witness :
    (transfer_ownership baseChain 1 defaultPubkey =
        .error (.program .InvalidNewOwner) ∧
      step baseChain (.transfer_ownership 1 defaultPubkey) = baseChain) ∧
    transfer_ownership baseChain 1 9 =
      .ok { baseChain with payment_state := some ⟨9, 0, 255⟩ } :=
  ⟨(C7_transfer_spec baseChain ⟨1, 0, 255⟩ defaultPubkey rfl).1 rfl,
   (C7_transfer_spec baseChain ⟨1, 0, 255⟩ 9 rfl).2 (by decide)⟩

/-- C10: `initialize` performs no validity check on its authority
argument — it happily installs the null identity as the stored authority —
even though `transfer_ownership` rejects that same identity as a new
authority with `InvalidNewOwner`. -/
theorem C10_null_authority_installed (c : Chain) (b : Nat)
    (h : c.payment_state = none) :
    (∃ c', initLedger c defaultPubkey b = .ok c' ∧
      c'.payment_state = some ⟨defaultPubkey, 0, b⟩) ∧
    (∀ c2 st2, c2.payment_state = some st2 →
      transfer_ownership c2 st2.owner defaultPubkey =
        .error (.program .InvalidNewOwner)) := by
  constructor
  · refine ⟨{ c with payment_state := some ⟨defaultPubkey, 0, b⟩ }, ?_, rfl⟩
    simp [initLedger, h]
  · intro c2 st2 h2
    simp [transfer_ownership, h2, defaultPubkey]

/-- C10 witness: initializing with the null identity from the empty chain
succeeds, while the null identity is rejected as a `transfer_ownership`
target even when presented by the (null) authority itself. -/
theorem C10_null_authority_installed_witness :
    (∃ c', initLedger emptyChain defaultPubkey 255 = .ok c' ∧
      c'.payment_state = some ⟨defaultPubkey, 0, 255⟩) ∧
    transfer_ownership nullOwnerChain 0 defaultPubkey =
      .error (.program .InvalidNewOwner) :=
  ⟨(C10_null_authority_installed emptyChain 255 rfl).1,
   (C10_null_authority_installed emptyChain 255 rfl).2 nullOwnerChain
     ⟨defaultPubkey, 0, 255⟩ rfl⟩

/-- Recombining `k` little-endian bytes of `n` gives `n` modulo `256^k`. -/
theorem leDecode_leBytes : ∀ (k n : Nat), leDecode (leBytes k n) = n % 256 ^ k
  | 0, n => by simp [leBytes, leDecode, Nat.mod_one]
  | k + 1, n => by
      rw [leBytes, leDecode, leDecode_leBytes k (n / 256), pow_succ,
        mul_comm (256 ^ k) 256, Nat.mod_mul]

/-- The 8-byte little-endian encoding is injective on `u64` values. -/
theorem u64le_inj {m n : Nat} (hm : m < U64) (hn : n < U64)
    (h : u64le m = u64le n) : m = n := by
  have h1 := congrArg leDecode h
  rw [u64le, u64le, leDecode_leBytes, leDecode_leBytes] at h1
  have e : (256 : Nat) ^ 8 = U64 := by norm_num [U64]
  rwa [e, Nat.mod_eq_of_lt hm, Nat.mod_eq_of_lt hn] at h1

/-- In a state satisfying the structural invariant, the seeds of the next
record do not collide with any stored record. -/
theorem seed_fresh (c : Chain) (st : PaymentState)
    (h : c.payment_state = some st) (hinv : ledgerInv c)
    (hc : st.total_payments + 1 < U64) :
    u64le (st.total_payments + 1) ∉ c.records.map Prod.fst := by
  rw [ledgerInv, h] at hinv
  obtain ⟨hlt, hfst, _⟩ := hinv
  intro hmem
  rw [hfst] at hmem
  obtain ⟨i, hi, heq⟩ := List.mem_map.mp hmem
  have hi' := List.mem_range'_1.mp hi
  have : i = st.total_payments + 1 :=
    u64le_inj (by omega) (by omega) heq
  omega

/-- Success characterization of `receive_payment`: when the state account
exists, the counter can be incremented without overflowing, no record sits
at the derived address, and the payer can fund the amount, the call
returns exactly the state with the counter bumped, one record appended,
the vault credited, and the payer debited. -/
theorem receive_payment_ok (c : Chain) (st : PaymentState) (p : Pubkey)
    (amt : Nat) (t : Int) (b : Nat) (h : c.payment_state = some st)
    (hc : st.total_payments + 1 < U64)
    (hseed : u64le (st.total_payments + 1) ∉ c.records.map Prod.fst)
    (hbal : amt ≤ c.balances p) :
    receive_payment c p amt t b = .ok { c with
      payment_state := some { st with total_payments := st.total_payments + 1 },
      records := c.records ++
        [(u64le (st.total_payments + 1),
          ⟨st.total_payments + 1, p, amt, t, b⟩)],
      vault := c.vault + amt,
      balances := fun q =>
        if q = p then c.balances p - amt else c.balances q } := by
  have hno : ¬ (U64 ≤ st.total_payments + 1) := by omega
  have hno2 : ¬ (c.balances p < amt) := by omega
  simp [receive_payment, h, hno, hseed, hno2]

/-- Inversion of a successful `receive_payment`: the result is exactly the
state built by `receive_payment_ok`, and the pre-state passed all the
checks. -/
theorem receive_payment_ok_inv (c c' : Chain) (st : PaymentState)
    (p : Pubkey) (amt : Nat) (t : Int) (b : Nat)
    (h : c.payment_state = some st)
    (hok : receive_payment c p amt t b = .ok c') :
    st.total_payments + 1 < U64 ∧
    u64le (st.total_payments + 1) ∉ c.records.map Prod.fst ∧
    amt ≤ c.balances p ∧
    c' = { c with
      payment_state := some { st with total_payments := st.total_payments + 1 },
      records := c.records ++
        [(u64le (st.total_payments + 1),
          ⟨st.total_payments + 1, p, amt, t, b⟩)],
      vault := c.vault + amt,
      balances := fun q =>
        if q = p then c.balances p - amt else c.balances q } := by
  rw [receive_payment, h] at hok
  by_cases h1 : U64 ≤ st.total_payments + 1
  · simp [h1] at hok
  by_cases h2 : u64le (st.total_payments + 1) ∈ c.records.map Prod.fst
  · simp [h1, h2] at hok
  by_cases h3 : c.balances p < amt
  · simp [h1, h2, h3] at hok
  refine ⟨by omega, h2, by omega, ?_⟩
  simp [h1, h2, h3] at hok
  exact hok.symm

/-- Inversion of a successful `initialize`: the state account did not
exist, and the result only installs the new `PaymentState`. -/
theorem initLedger_ok_inv (c c' : Chain) (o : Pubkey) (sb : Nat)
    (hok : initLedger c o sb = .ok c') :
    c.payment_state = none ∧
    c' = { c with payment_state := some ⟨o, 0, sb⟩ } := by
  rcases hst : c.payment_state with _ | st
  · rw [initLedger, hst] at hok
    simp at hok
    exact ⟨rfl, hok.symm⟩
  · rw [initLedger, hst] at hok
    simp at hok

/-- Inversion of `withdraw`: it never succeeds.  Every branch of the
handler either fails a check or is rejected by the runtime's
lamport-ownership rule. -/
theorem withdraw_not_ok (c c' : Chain) (k : Pubkey)
    (hok : withdraw c k = .ok c') : False := by
  rcases hst : c.payment_state with _ | st
  · rw [withdraw, hst] at hok
    simp at hok
  · rw [withdraw, hst] at hok
    by_cases hk : k = st.owner
    · subst hk
      by_cases hv : 0 < c.vault
      · simp [hv] at hok
      · simp [hv] at hok
    · simp [hk] at hok

/-- Inversion of a successful `transfer_ownership`: the state account
exists, the caller is the stored authority, the new owner is non-null, and
the result only replaces the stored authority. -/
theorem transfer_ok_inv (c c' : Chain) (k n : Pubkey)
    (hok : transfer_ownership c k n = .ok c') :
    ∃ st, c.payment_state = some st ∧ k = st.owner ∧ n ≠ defaultPubkey ∧
      c' = { c with payment_state := some { st with owner := n } } := by
  rcases hst : c.payment_state with _ | st
  · rw [transfer_ownership, hst] at hok
    simp at hok
  · rw [transfer_ownership, hst] at hok
    by_cases hk : k = st.owner
    · subst hk
      by_cases hn : n = defaultPubkey
      · simp [hn] at hok
      · simp [hn] at hok
        exact ⟨st, rfl, rfl, hn, hok.symm⟩
    · simp [hk] at hok

/-- The vault balance flow of one transaction: whatever a transaction
credits and debits the vault is exactly described by `recvAmt` and
`wdAmt`. -/
theorem vault_step (c : Chain) (op : Op) :
    (step c op).vault + wdAmt c op = c.vault + recvAmt c op := by
  cases op with
  | initLedger o sb =>
      rcases hr : initLedger c o sb with e | c'
      · simp [step, apply, hr, wdAmt, recvAmt]
      · obtain ⟨h1, h2⟩ := initLedger_ok_inv c c' o sb hr
        subst h2
        simp [step, apply, hr, wdAmt, recvAmt]
  | receive_payment p a t b =>
      rcases hr : receive_payment c p a t b with e | c'
      · simp [step, apply, hr, wdAmt, recvAmt, isOk]
      · rcases hst : c.payment_state with _ | st
        · rw [receive_payment, hst] at hr
          simp at hr
        · obtain ⟨-, -, -, h4⟩ :=
            receive_payment_ok_inv c c' st p a t b hst hr
          subst h4
          simp [step, apply, hr, wdAmt, recvAmt, isOk]
  | withdraw k =>
      rcases hr : withdraw c k with e | c'
      · simp [step, apply, hr, wdAmt, recvAmt, isOk]
      · exact (withdraw_not_ok c c' k hr).elim
  | transfer_ownership k n =>
      rcases hr : transfer_ownership c k n with e | c'
      · simp [step, apply, hr, wdAmt, recvAmt]
      · obtain ⟨st, -, -, -, h4⟩ := transfer_ok_inv c c' k n hr
        subst h4
        simp [step, apply, hr, wdAmt, recvAmt]

/-- The vault balance flow of a whole transaction sequence. -/
theorem vault_flow (c : Chain) (ops : List Op) :
    (exec c ops).vault + wdTotal c ops = c.vault + recvTotal c ops := by
  induction ops generalizing c with
  | nil => simp [exec, wdTotal, recvTotal]
  | cons op ops ih =>
      have h1 := vault_step c op
      have h2 := ih (step c op)
      simp only [exec, wdTotal, recvTotal]
      omega

/-- C1: starting from a freshly initialized deployment, after any sequence
of operations the vault balance equals the sum of the amounts of the
successful `receive_payment` calls minus the sum of the amounts of the
successful `withdraw` calls (the subtrahend never exceeds the minuend, so
the balance never goes negative), and the two operations that are not
`receive_payment` or `withdraw` never change the vault balance, whether
they succeed or fail. -/
theorem C1_vault_balance (a : Pubkey) (b : Nat) (bal : Pubkey → Nat)
    (ops : List Op) :
    wdTotal (freshChain a b bal) ops ≤ recvTotal (freshChain a b bal) ops ∧
    (exec (freshChain a b bal) ops).vault =
      recvTotal (freshChain a b bal) ops -
        wdTotal (freshChain a b bal) ops ∧
    (∀ c o sb, (step c (.initLedger o sb)).vault = c.vault) ∧
    (∀ c k n, (step c (.transfer_ownership k n)).vault = c.vault) := by
  have h := vault_flow (freshChain a b bal) ops
  have hv : (freshChain a b bal).vault = 0 := rfl
  refine ⟨by omega, by omega, ?_, ?_⟩
  · intro c o sb
    have h1 := vault_step c (.initLedger o sb)
    simpa [wdAmt, recvAmt] using h1
  · intro c k n
    have h1 := vault_step c (.transfer_ownership k n)
    simpa [wdAmt, recvAmt] using h1

/-- Every transaction preserves the structural invariant. -/
theorem ledgerInv_step (c : Chain) (op : Op) (hinv : ledgerInv c) :
    ledgerInv (step c op) := by
  cases op with
  | initLedger o sb =>
      rcases hr : initLedger c o sb with e | c'
      · simpa [step, apply, hr] using hinv
      · obtain ⟨h1, h2⟩ := initLedger_ok_inv c c' o sb hr
        subst h2
        simp only [ledgerInv, h1] at hinv
        simp only [step, apply, hr]
        exact ⟨(by decide : (0 : Nat) < U64), by simp [hinv, List.range'],
          by simp [idsOf, hinv, List.range']⟩
  | receive_payment p a t b =>
      rcases hr : receive_payment c p a t b with e | c'
      · simpa [step, apply, hr] using hinv
      · rcases hst : c.payment_state with _ | st
        · rw [receive_payment, hst] at hr
          simp at hr
        · obtain ⟨hc, hseed, hbal, h4⟩ :=
            receive_payment_ok_inv c c' st p a t b hst hr
          subst h4
          simp only [ledgerInv, hst] at hinv
          obtain ⟨h5, h6, h7⟩ := hinv
          simp only [step, apply, hr]
          refine ⟨hc, ?_, ?_⟩
          · simp [h6, List.range'_1_concat, Nat.add_comm]
          · simp only [idsOf] at h7 ⊢
            simp [h7, List.range'_1_concat, Nat.add_comm]
  | withdraw k =>
      rcases hr : withdraw c k with e | c'
      · simpa [step, apply, hr] using hinv
      · exact (withdraw_not_ok c c' k hr).elim
  | transfer_ownership k n =>
      rcases hr : transfer_ownership c k n with e | c'
      · simpa [step, apply, hr] using hinv
      · obtain ⟨st, hst, -, -, h4⟩ := transfer_ok_inv c c' k n hr
        subst h4
        simp only [ledgerInv, hst] at hinv
        obtain ⟨h5, h6, h7⟩ := hinv
        simp only [step, apply, hr]
        exact ⟨h5, h6, h7⟩

/-- The structural invariant holds after any transaction sequence. -/
theorem ledgerInv_exec (c : Chain) (ops : List Op) (hinv : ledgerInv c) :
    ledgerInv (exec c ops) := by
  induction ops generalizing c with
  | nil => exact hinv
  | cons op ops ih => exact ih (step c op) (ledgerInv_step c op hinv)

/-- In any invariant-satisfying state the stored `payment_id`s are exactly
`1, …, countOf c` in order. -/
theorem ledgerInv_ids (c : Chain) (hinv : ledgerInv c) :
    idsOf c = List.range' 1 (countOf c) := by
  rcases hst : c.payment_state with _ | st
  · simp only [ledgerInv, hst] at hinv
    simp [idsOf, countOf, hst, hinv, List.range']
  · simp only [ledgerInv, hst] at hinv
    obtain ⟨-, -, h7⟩ := hinv
    simpa [countOf, hst] using h7

/-- How one transaction changes the counter: only a successful
`receive_payment` changes it, and by exactly one. -/
theorem countOf_step (c : Chain) (op : Op) :
    countOf (step c op) = countOf c +
      match op with
      | .receive_payment _ _ _ _ => if isOk (apply c op) then 1 else 0
      | _ => 0 := by
  cases op with
  | initLedger o sb =>
      rcases hr : initLedger c o sb with e | c'
      · simp [step, apply, hr]
      · obtain ⟨h1, h2⟩ := initLedger_ok_inv c c' o sb hr
        subst h2
        simp [step, apply, hr, countOf, h1]
  | receive_payment p a t b =>
      rcases hr : receive_payment c p a t b with e | c'
      · simp [step, apply, hr, isOk]
      · rcases hst : c.payment_state with _ | st
        · rw [receive_payment, hst] at hr
          simp at hr
        · obtain ⟨-, -, -, h4⟩ :=
            receive_payment_ok_inv c c' st p a t b hst hr
          subst h4
          simp [step, apply, hr, isOk, countOf, hst]
  | withdraw k =>
      rcases hr : withdraw c k with e | c'
      · simp [step, apply, hr]
      · exact (withdraw_not_ok c c' k hr).elim
  | transfer_ownership k n =>
      rcases hr : transfer_ownership c k n with e | c'
      · simp [step, apply, hr]
      · obtain ⟨st, hst, -, -, h4⟩ := transfer_ok_inv c c' k n hr
        subst h4
        simp [step, apply, hr, countOf, hst]

/-- The counter after a transaction sequence grows by exactly the number
of successful `receive_payment` calls. -/
theorem countOf_exec (c : Chain) (ops : List Op) :
    countOf (exec c ops) = countOf c + recvCount c ops := by
  induction ops generalizing c with
  | nil => simp [exec, recvCount]
  | cons op ops ih =>
      simp only [exec, recvCount]
      rw [ih (step c op), countOf_step]
      omega

/-- C4: from a freshly initialized deployment, after any sequence of
operations `payment_count` equals the number of successful
`receive_payment` calls, the stored `payment_id`s are exactly
`1, …, payment_count` in creation order — hence without gaps or
duplicates — and every successful `receive_payment` call increases the
counter by exactly one. -/
theorem C4_payment_count_and_ids (a : Pubkey) (b : Nat) (bal : Pubkey → Nat)
    (ops : List Op) :
    countOf (exec (freshChain a b bal) ops) =
      recvCount (freshChain a b bal) ops ∧
    idsOf (exec (freshChain a b bal) ops) =
      List.range' 1 (countOf (exec (freshChain a b bal) ops)) ∧
    (idsOf (exec (freshChain a b bal) ops)).Nodup ∧
    (∀ c p amt t rb, isOk (apply c (.receive_payment p amt t rb)) = true →
      countOf (step c (.receive_payment p amt t rb)) = countOf c + 1) := by
  have hfresh : ledgerInv (freshChain a b bal) :=
    ⟨(by decide : (0 : Nat) < U64), rfl, rfl⟩
  have hinv := ledgerInv_exec (freshChain a b bal) ops hfresh
  have hids := ledgerInv_ids _ hinv
  have hcount := countOf_exec (freshChain a b bal) ops
  have h0 : countOf (freshChain a b bal) = 0 := rfl
  refine ⟨by omega, hids, ?_, ?_⟩
  · rw [hids]
    exact List.nodup_range' 1 _
  · intro c p amt t rb hok
    rcases hr : receive_payment c p amt t rb with e | c'
    · simp only [apply] at hok
      rw [hr] at hok
      simp [isOk] at hok
    · rcases hst : c.payment_state with _ | st
      · rw [receive_payment, hst] at hr
        simp at hr
      · obtain ⟨-, -, -, h4⟩ :=
          receive_payment_ok_inv c c' st p amt t rb hst hr
        subst h4
        simp [step, apply, hr, countOf, hst]

/-- C4 witness: two concrete payments from a fresh deployment, and the
counter increment of the first one. -/
theorem C4_payment_count_and_ids_witness :
    countOf (exec (freshChain 1 255 fun _ => 1000)
        [.receive_payment 5 100 0 254, .receive_payment 6 7 1 253]) =
      recvCount (freshChain 1 255 fun _ => 1000)
        [.receive_payment 5 100 0 254, .receive_payment 6 7 1 253] ∧
    idsOf (exec (freshChain 1 255 fun _ => 1000)
        [.receive_payment 5 100 0 254, .receive_payment 6 7 1 253]) =
      List.range' 1 (countOf (exec (freshChain 1 255 fun _ => 1000)
        [.receive_payment 5 100 0 254, .receive_payment 6 7 1 253])) ∧
    countOf (step (freshChain 1 255 fun _ => 1000)
        (.receive_payment 5 100 0 254)) =
      countOf (freshChain 1 255 fun _ => 1000) + 1 :=
  ⟨(C4_payment_count_and_ids 1 255 (fun _ => 1000)
      [.receive_payment 5 100 0 254, .receive_payment 6 7 1 253]).1,
   (C4_payment_count_and_ids 1 255 (fun _ => 1000)
      [.receive_payment 5 100 0 254, .receive_payment 6 7 1 253]).2.1,
   (C4_payment_count_and_ids 1 255 (fun _ => 1000)
      [.receive_payment 5 100 0 254, .receive_payment 6 7 1 253]).2.2.2
     (freshChain 1 255 fun _ => 1000) 5 100 0 254 (by decide)⟩

/-- C6: `receive_payment` is atomic in the face of a failing balance
transfer.  When the payer cannot fund the amount, the call rejects with
`insufficientFunds` and the transaction leaves the chain unchanged: the
counter is not incremented, no record is created, and the vault balance is
untouched. -/
theorem C6_transfer_failure_atomic (c : Chain) (st : PaymentState)
    (p : Pubkey) (amt : Nat) (t : Int) (b : Nat)
    (h : c.payment_state = some st)
    (hc : st.total_payments + 1 < U64)
    (hseed : u64le (st.total_payments + 1) ∉ c.records.map Prod.fst)
    (hins : c.balances p < amt) :
    receive_payment c p amt t b = .error .insufficientFunds ∧
    step c (.receive_payment p amt t b) = c := by
  have hno : ¬ (U64 ≤ st.total_payments + 1) := by omega
  have h1 : receive_payment c p amt t b = .error .insufficientFunds := by
    simp [receive_payment, h, hno, hseed, hins]
  exact ⟨h1, by simp [step, apply, h1]⟩

/-- C6 witness: a payer holding 0 lamports cannot pay 5. -/
theorem C6_transfer_failure_atomic_witness :
    receive_payment (freshChain 1 255 fun _ => 0) 5 5 0 254 =
      .error .insufficientFunds ∧
    step (freshChain 1 255 fun _ => 0) (.receive_payment 5 5 0 254) =
      freshChain 1 255 fun _ => 0 :=
  C6_transfer_failure_atomic (freshChain 1 255 fun _ => 0) ⟨1, 0, 255⟩
    5 5 0 254 rfl (by decide) (by decide) (by decide)

/-- C8: every successful `receive_payment` appends exactly one
`PaymentRecord`, whose `payment_id` is the incremented counter, whose
`payer` is the calling identity, whose `amount` is the input amount, and
whose `timestamp` is the ledger clock value; the record is stored under
the seed bytes `u64le (new counter)` — the new counter encoded as exactly
8 little-endian bytes (decoding them gives the counter back). -/
theorem C8_record_created (c c' : Chain) (st : PaymentState) (p : Pubkey)
    (amt : Nat) (t : Int) (b : Nat) (h : c.payment_state = some st)
    (hok : receive_payment c p amt t b = .ok c') :
    c'.records = c.records ++
      [(u64le (st.total_payments + 1),
        ⟨st.total_payments + 1, p, amt, t, b⟩)] ∧
    c'.payment_state =
      some { st with total_payments := st.total_payments + 1 } ∧
    (u64le (st.total_payments + 1)).length = 8 ∧
    leDecode (u64le (st.total_payments + 1)) = st.total_payments + 1 := by
  obtain ⟨hc, -, -, hc'⟩ := receive_payment_ok_inv c c' st p amt t b h hok
  subst hc'
  refine ⟨rfl, rfl, rfl, ?_⟩
  rw [u64le, leDecode_leBytes]
  have e : (256 : Nat) ^ 8 = U64 := by norm_num [U64]
  rw [e]
  exact Nat.mod_eq_of_lt hc

/-- C8 witness: the concrete first payment from a fresh deployment. -/
theorem C8_record_created_witness :
    recvResult.records = (freshChain 1 255 fun _ => 1000).records ++
      [(u64le 1, ⟨1, 5, 100, 0, 254⟩)] ∧
    recvResult.payment_state = some ⟨1, 1, 255⟩ ∧
    (u64le 1).length = 8 ∧
    leDecode (u64le 1) = 1 :=
  C8_record_created (freshChain 1 255 fun _ => 1000) recvResult
    ⟨1, 0, 255⟩ 5 100 0 254 rfl rfl

/-- C9: a zero-amount payment is accepted, not rejected.  From any
invariant-satisfying state whose counter is below `u64::MAX`,
`receive_payment` with `amount = 0` succeeds, increments the counter by
one, records a `PaymentRecord` with `amount = 0` for the caller, and
leaves the vault balance and every general balance unchanged. -/
theorem C9_zero_amount_accepted (c : Chain) (st : PaymentState)
    (p : Pubkey) (t : Int) (b : Nat) (h : c.payment_state = some st)
    (hinv : ledgerInv c) (hc : st.total_payments + 1 < U64) :
    ∃ c', receive_payment c p 0 t b = .ok c' ∧
      countOf c' = st.total_payments + 1 ∧
      c'.records = c.records ++
        [(u64le (st.total_payments + 1),
          ⟨st.total_payments + 1, p, 0, t, b⟩)] ∧
      c'.vault = c.vault ∧
      c'.balances = c.balances := by
  have hseed := seed_fresh c st h hinv hc
  have hok := receive_payment_ok c st p 0 t b h hc hseed (Nat.zero_le _)
  refine ⟨_, hok, rfl, rfl, by simp, ?_⟩
  funext q
  by_cases hq : q = p <;> simp [hq]

/-- C9 witness: a concrete zero-amount payment from a fresh deployment. -/
theorem C9_zero_amount_accepted_witness :
    ∃ c', receive_payment (freshChain 1 255 fun _ => 1000) 5 0 0 254 =
        .ok c' ∧
      countOf c' = 1 ∧
      c'.records = (freshChain 1 255 fun _ => 1000).records ++
        [(u64le 1, ⟨1, 5, 0, 0, 254⟩)] ∧
      c'.vault = (freshChain 1 255 fun _ => 1000).vault ∧
      c'.balances = (freshChain 1 255 fun _ => 1000).balances :=
  C9_zero_amount_accepted (freshChain 1 255 fun _ => 1000) ⟨1, 0, 255⟩
    5 0 254 rfl ⟨by decide, rfl, rfl⟩ (by decide)

end PaymentReceiver
